import Mathlib

/-!
Verification of the steamlet command-line launcher.

This file gives a shallow embedding of the program in `src/main.rs`: an
alias store persisted as a JSON file (modelled as an association list from
alias strings to numeric game ids), the four subcommands `Play`, `Set`,
`Remove` and `List`, the `get_alias_data` loader, the `write_to_data_file`
persister, and the `run_steam_game` launch dispatcher.  External effects
(directory resolution, file IO, process spawning, serde) are modelled by
explicit parameters and result records.  Rust `String` is modelled by Lean
`String`; `to_lowercase`, `trim` and `len` are modelled for the ASCII
fragment on which they agree with their Unicode versions.
-/

namespace Steamlet

/-- Association-list model of the `HashMap<String, u32>` alias store. -/
abbrev AliasMap := List (String × Nat)

/-- Model of `HashMap::get`: value of the first (for well-formed maps, only)
entry whose key equals `k`. -/
def getKey : AliasMap → String → Option Nat
  | [], _ => none
  | p :: rest, k => if p.1 = k then some p.2 else getKey rest k

/-- Model of `HashMap::contains_key`. -/
def containsKey (m : AliasMap) (k : String) : Bool :=
  (getKey m k).isSome

/-- Model of `HashMap::insert`: overwrites the entry when the key is
present, otherwise adds a new entry. -/
def insertKey : AliasMap → String → Nat → AliasMap
  | [], k, v => [(k, v)]
  | p :: rest, k, v => if p.1 = k then (k, v) :: rest else p :: insertKey rest k v

/-- Model of `char` lowercasing as used by `str::to_lowercase`: ASCII
letters `A`..`Z` (codepoints 65..90) map 32 codepoints up; every other
character is unchanged.  This agrees with Rust on the ASCII fragment. -/
def lowerChar (c : Char) : Char :=
  if 65 ≤ c.toNat ∧ c.toNat ≤ 90 then Char.ofNat (c.toNat + 32) else c

/-- Model of `str::to_lowercase`. -/
def lowerString (s : String) : String :=
  ⟨s.data.map lowerChar⟩

/-- Model of `str::trim`: drop whitespace characters from both ends. -/
def rustTrim (s : String) : String :=
  ⟨((s.data.dropWhile Char.isWhitespace).reverse.dropWhile Char.isWhitespace).reverse⟩

/-- Model of `str::len`: the UTF-8 byte length of the string. -/
def byteLen (s : String) : Nat :=
  (s.data.map Char.utf8Size).sum

/-- The single-quote character (codepoint 39), used in the printed
messages. -/
def sq : String :=
  String.singleton (Char.ofNat 39)

/-- `static DATA_FILE_NAME : str = "steamlet.json"`. -/
def DATA_FILE_NAME : String := "steamlet.json"

/-- Environment facts `get_alias_data` depends on: whether the per-user
data subdirectory exists, whether creating the directory and a fresh file
succeed, whether opening the existing file succeeds, and the result of
`serde_json::from_reader` on the opened file (`none` meaning the parse
failed). -/
structure Env where
  dirExists : Bool
  createDirOk : Bool
  createFileOk : Bool
  openFileOk : Bool
  parseResult : Option AliasMap

/-- Outcome of `get_alias_data`: either a panic on one of its `unwrap`
calls (which aborts the whole command) or the loaded in-memory mapping. -/
inductive OpenResult where
  | fatal
  | ok (data : AliasMap)
deriving DecidableEq

/-- Model of `get_alias_data`.  If the data directory does not exist it is
created together with a fresh empty file and the mapping starts empty; any
creation failure panics.  If the directory exists, the backing file is
opened for reading and writing (failure to open panics) and its contents
are parsed, `serde_json::from_reader(..).unwrap_or(HashMap::new())`
falling back to the empty mapping on a parse failure. -/
def get_alias_data (e : Env) : OpenResult :=
  if !e.dirExists then
    if e.createDirOk then
      if e.createFileOk then OpenResult.ok [] else OpenResult.fatal
    else OpenResult.fatal
  else
    if e.openFileOk then OpenResult.ok (e.parseResult.getD []) else OpenResult.fatal

/-- State of the backing file: its current contents. -/
structure FileState where
  contents : String
deriving DecidableEq

/-- Result of `write_to_data_file`: the backing file contents afterwards,
the lines printed, and whether the function panicked. -/
structure WriteResult where
  file : String
  printed : List String
  panicked : Bool
deriving DecidableEq

/-- Model of `write_to_data_file`.  The function first runs
`file.set_len(0)` and seeks to position 0, destroying the previous
contents, and only then attempts `serde_json::to_writer_pretty`
(modelled by the `serialize` parameter, `none` meaning failure).  On
success the serialized text is written from position 0 and the
caller-supplied message printed; on failure a warning naming
`DATA_FILE_NAME` is printed and the function returns normally, leaving
the file truncated. -/
def write_to_data_file (fs : FileState) (serialize : AliasMap → Option String)
    (data : AliasMap) (message : String) : WriteResult :=
  let truncated : String := ""
  match serialize data with
  | some text =>
      { file := truncated ++ text, printed := [message], panicked := false }
  | none =>
      { file := truncated, printed := ["Error while writing to " ++ DATA_FILE_NAME],
        panicked := false }

/-- Result of one subcommand: the final in-memory mapping, the arguments
of each `write_to_data_file` call made (in order), and the lines printed
directly by the command. -/
structure CmdResult where
  data : AliasMap
  persistCalls : List (AliasMap × String)
  printed : List String
deriving DecidableEq

/-- Model of the `Set` subcommand body.  The alias is trimmed and
lower-cased; if the result has positive byte length the entry is inserted
and the store persisted with a success message, otherwise nothing is
mutated and the empty-alias message is printed. -/
def setCommand (data : AliasMap) (aliasStr : String) (gid : Nat) : CmdResult :=
  let formatted := lowerString (rustTrim aliasStr)
  if byteLen formatted > 0 then
    let newData := insertKey data formatted gid
    let message := "Alias " ++ sq ++ formatted ++ sq ++ " successfully set to " ++
      toString gid ++ "; total aliases = " ++ toString newData.length
    { data := newData, persistCalls := [(newData, message)], printed := [] }
  else
    { data := data, persistCalls := [], printed := ["Alias must not be empty"] }

/-- Model of the alias branch of the `Play` subcommand (the Lookup
operation): the input is lower-cased and looked up in the store. -/
def lookup (data : AliasMap) (s : String) : Option Nat :=
  getKey data (lowerString s)

/-- The message printed for a requested alias that is not a stored key. -/
def notFoundMsg (a : String) : String :=
  "Alias " ++ sq ++ a ++ sq ++ " not found"

/-- Model of the `aliases.retain` loop of the `Remove` subcommand: the
first component is the retained aliases (those that are stored keys,
matched exactly as given), the second the not-found messages printed, both
in input order. -/
def retainReport (data : AliasMap) : List String → List String × List String
  | [] => ([], [])
  | a :: rest =>
    let r := retainReport data rest
    if containsKey data a then (a :: r.1, r.2)
    else (r.1, notFoundMsg a :: r.2)

/-- One step of the `Remove` message-building loop: append `", "` before
every item except the first. -/
def joinStep (acc : String × Bool) (x : String) : String × Bool :=
  (acc.1 ++ (if acc.2 then "" else ", ") ++ x, false)

/-- Model of the `Remove` message-building loop over the removed
aliases. -/
def joinCommaSpace (l : List String) : String :=
  (l.foldl joinStep ("", true)).1

/-- Model of the `Remove` subcommand body: partition the requested aliases
with `retainReport`; if any were found, delete exactly those keys from the
store and persist once with a consolidated message, otherwise persist
nothing and report the current total count. -/
def removeCommand (data : AliasMap) (aliases : List String) : CmdResult :=
  let r := retainReport data aliases
  if r.1.length > 0 then
    let newData := data.filter (fun kv => decide (kv.1 ∉ r.1))
    let message := "Aliases " ++ sq ++ joinCommaSpace r.1 ++ sq ++
      " successfully removed; total aliases = " ++ toString newData.length
    { data := newData, persistCalls := [(newData, message)], printed := r.2 }
  else
    { data := data, persistCalls := [],
      printed := r.2 ++ ["Nothing to be removed; total aliases = " ++ toString data.length] }

/-- `let num_tabs : usize = 4`. -/
def num_tabs : Nat := 4

/-- Model of `((kv.0.len() as f64) / tab_size).round() as usize` with
`tab_size = 4.0`.  For `n < 2 ^ 53` the conversion of `n` to `f64` is
exact and `n / 4.0` is exactly representable, and `f64::round` rounds
halves away from zero, so on naturals the result is `(n + 2) / 4`. -/
def roundDivTabSize (n : Nat) : Nat := (n + 2) / 4

/-- `std::iter::repeat("\t").take(num_tabs).collect::<String>()`. -/
def spacesStr : String :=
  String.join (List.replicate num_tabs "\t")

/-- Model of the per-entry display logic of the `List` subcommand: the
lines printed for one sorted entry. -/
def entryLines (kv : String × Nat) : List String :=
  if roundDivTabSize (byteLen kv.1) > num_tabs then
    [kv.1, spacesStr ++ toString kv.2]
  else
    [kv.1 ++ spacesStr ++ toString kv.2]

/-- Model of `sorted.sort_by(|x, y| x.0.cmp(&y.0))`: a stable sort of
the entries by byte/codepoint lexicographic comparison of the keys
(UTF-8 byte order and codepoint order coincide). -/
def listSorted (data : AliasMap) : AliasMap :=
  data.mergeSort (fun x y => decide (x.1.data ≤ y.1.data))

/-- Model of the `List` subcommand body: the store is neither mutated nor
persisted; the sorted entries are rendered with `entryLines`.  (The
leading line printing the backing-file path depends only on the
environment and is omitted.) -/
def listCommand (data : AliasMap) : CmdResult :=
  { data := data, persistCalls := [],
    printed := (listSorted data).flatMap entryLines }

/-- A line of process output, as a character sequence. -/
abbrev Chars := List Char

/-- The fixed package identifier grepped for in the `flatpak list`
output. -/
def steamPackageId : Chars := "com.valvesoftware.Steam".data

/-- Model of `flatpak list | grep com.valvesoftware.Steam`: the lines of
the listing that contain the pattern as a contiguous substring, each
followed by a newline character (codepoint 10). -/
def grepOutput (pattern : Chars) (lines : List Chars) : Chars :=
  (lines.filter (fun l => decide (pattern <:+: l))).foldr
    (fun l acc => l ++ Char.ofNat 10 :: acc) []

/-- The two ways `run_steam_game` can start the client. -/
inductive LaunchAction where
  | flatpakRun (arg : String)
  | steamDirect (arg : String)
deriving DecidableEq

/-- `format!("steam://run/{}", game_id)`. -/
def deepLink (gid : Nat) : String :=
  "steam://run/" ++ toString gid

/-- Model of `run_steam_game`: grep the package listing for the Steam
flatpak; if the grep output contains `"Steam"`, spawn
`flatpak run com.valvesoftware.Steam <deep link>`, otherwise spawn
`steam <deep link>`. -/
def run_steam_game (listing : List Chars) (gid : Nat) : LaunchAction :=
  let v := grepOutput steamPackageId listing
  if "Steam".data <:+: v then LaunchAction.flatpakRun (deepLink gid)
  else LaunchAction.steamDirect (deepLink gid)

/-- A key is well-formed when it is non-empty and lower-case. -/
def goodKey (s : String) : Prop :=
  s ≠ "" ∧ lowerString s = s

/-- Store invariant: every key is non-empty and lower-case. -/
def storeInv (m : AliasMap) : Prop :=
  ∀ p ∈ m, goodKey p.1

/-- Tail of a comma-separated join: `", " ++ x` for each element. -/
def commaTail : List String → String
  | [] => ""
  | a :: rest => ", " ++ a ++ commaTail rest

/-- The elements joined by `", "`, stated by simple recursion (the form
the specification describes). -/
def commaSeparated : List String → String
  | [] => ""
  | a :: rest => a ++ commaTail rest

/-- The requested aliases that are stored keys, in input order. -/
def foundAliases (data : AliasMap) (aliases : List String) : List String :=
  aliases.filter (fun a => containsKey data a)

/-- The requested aliases that are not stored keys, in input order. -/
def missingAliases (data : AliasMap) (aliases : List String) : List String :=
  aliases.filter (fun a => !(containsKey data a))

/-- The store with exactly the found keys deleted, other entries kept in
order. -/
def removeResult (data : AliasMap) (aliases : List String) : AliasMap :=
  data.filter (fun kv => decide (kv.1 ∉ foundAliases data aliases))

/-- The consolidated success message of `Remove`. -/
def removeSuccessMsg (data : AliasMap) (aliases : List String) : String :=
  "Aliases " ++ sq ++ commaSeparated (foundAliases data aliases) ++ sq ++
    " successfully removed; total aliases = " ++ toString (removeResult data aliases).length

/-! ## Helper lemmas about the store operations -/

lemma getKey_insertKey_self (m : AliasMap) (k : String) (v : Nat) :
    getKey (insertKey m k v) k = some v := by
  induction m with
  | nil => simp [insertKey, getKey]
  | cons p rest ih =>
    by_cases h : p.1 = k
    · simp [insertKey, h, getKey]
    · simp [insertKey, h, getKey, ih]

lemma mem_insertKey {m : AliasMap} {k : String} {v : Nat} {p : String × Nat}
    (hp : p ∈ insertKey m k v) : p = (k, v) ∨ p ∈ m := by
  induction m with
  | nil => simpa [insertKey] using hp
  | cons q rest ih =>
    by_cases h : q.1 = k
    · simp only [insertKey, if_pos h, List.mem_cons] at hp
      rcases hp with h1 | h1
      · exact Or.inl h1
      · exact Or.inr (List.mem_cons_of_mem _ h1)
    · simp only [insertKey, if_neg h, List.mem_cons] at hp
      rcases hp with h1 | h1
      · exact Or.inr (h1 ▸ List.mem_cons_self _ _)
      · rcases ih h1 with h2 | h2
        · exact Or.inl h2
        · exact Or.inr (List.mem_cons_of_mem _ h2)

lemma lowerChar_idem (c : Char) : lowerChar (lowerChar c) = lowerChar c := by
  unfold lowerChar
  by_cases h : 65 ≤ c.toNat ∧ c.toNat ≤ 90
  · rw [if_pos h]
    have hlt : c.toNat + 32 < 55296 := by omega
    have ht : (Char.ofNat (c.toNat + 32)).toNat = c.toNat + 32 := by
      simp only [Char.ofNat, dif_pos (Or.inl hlt : (c.toNat + 32).isValidChar)]
      rfl
    rw [ht, if_neg (by omega)]
  · rw [if_neg h, if_neg h]

lemma lowerString_idem (s : String) : lowerString (lowerString s) = lowerString s := by
  unfold lowerString
  apply congrArg
  rw [List.map_map]
  exact List.map_congr_left (fun c _ => lowerChar_idem c)

lemma byteLen_eq_zero_iff (s : String) : byteLen s = 0 ↔ s = "" := by
  unfold byteLen
  constructor
  · intro h
    have hall := List.sum_eq_zero_iff.mp h
    cases hd : s.data with
    | nil => exact String.ext hd
    | cons c rest =>
      have : c.utf8Size = 0 := hall _ (by rw [hd]; simp)
      exact absurd this (Nat.pos_iff_ne_zero.mp (Char.utf8Size_pos c))
  · intro h
    subst h
    rfl

lemma byteLen_pos {s : String} (h : s ≠ "") : 0 < byteLen s :=
  Nat.pos_of_ne_zero (fun h0 => h ((byteLen_eq_zero_iff s).mp h0))

lemma retainReport_fst (d : AliasMap) (l : List String) :
    (retainReport d l).1 = l.filter (fun a => containsKey d a) := by
  induction l with
  | nil => rfl
  | cons a rest ih =>
    by_cases h : containsKey d a = true
    · simp [retainReport, h, ih]
    · simp [retainReport, h, ih]

lemma retainReport_snd (d : AliasMap) (l : List String) :
    (retainReport d l).2 = (l.filter (fun a => !(containsKey d a))).map notFoundMsg := by
  induction l with
  | nil => rfl
  | cons a rest ih =>
    by_cases h : containsKey d a = true
    · simp [retainReport, h, ih]
    · simp [retainReport, h, ih]

lemma foldl_joinStep (l : List String) : ∀ acc : String,
    (l.foldl joinStep (acc, false)).1 = acc ++ commaTail l := by
  induction l with
  | nil =>
    intro acc
    simp [commaTail]
  | cons a rest ih =>
    intro acc
    show (rest.foldl joinStep (joinStep (acc, false) a)).1 = _
    rw [show joinStep (acc, false) a = (acc ++ ", " ++ a, false) from rfl, ih]
    simp [commaTail, String.append_assoc]

lemma joinCommaSpace_eq (l : List String) : joinCommaSpace l = commaSeparated l := by
  cases l with
  | nil => rfl
  | cons a rest =>
    unfold joinCommaSpace
    show (rest.foldl joinStep (joinStep ("", true) a)).1 = _
    rw [show joinStep ("", true) a = ("" ++ "" ++ a, false) from rfl, foldl_joinStep]
    show "" ++ "" ++ a ++ commaTail rest = commaSeparated (a :: rest)
    simp [commaSeparated]

/-! ## Helper lemmas for the launch dispatcher -/

lemma mem_foldr_nl {l : Chars} {ls : List Chars} (h : l ∈ ls) :
    l <:+: ls.foldr (fun x acc => x ++ Char.ofNat 10 :: acc) [] := by
  induction ls with
  | nil => cases h
  | cons x rest ih =>
    rcases List.mem_cons.mp h with h1 | h1
    · subst h1
      exact ⟨[], Char.ofNat 10 :: rest.foldr (fun x acc => x ++ Char.ofNat 10 :: acc) [], by simp⟩
    · obtain ⟨s, t, hst⟩ := ih h1
      refine ⟨x ++ Char.ofNat 10 :: s, t, ?_⟩
      simp only [List.foldr_cons]
      rw [← hst]
      simp

lemma grep_steam_iff (lines : List Chars) :
    ("Steam".data <:+: grepOutput steamPackageId lines) ↔
      ∃ l ∈ lines, steamPackageId <:+: l := by
  constructor
  · intro h
    by_contra hn
    push_neg at hn
    have hfil : lines.filter (fun l => decide (steamPackageId <:+: l)) = [] := by
      rw [List.filter_eq_nil_iff]
      intro a ha
      simpa using hn a ha
    unfold grepOutput at h
    rw [hfil] at h
    exact absurd h (by decide)
  · rintro ⟨l, hl, hp⟩
    have hmem : l ∈ lines.filter (fun l => decide (steamPackageId <:+: l)) :=
      List.mem_filter.mpr ⟨hl, by simpa using hp⟩
    have h1 : l <:+: grepOutput steamPackageId lines := mem_foldr_nl hmem
    have h2 : ("Steam".data <:+: steamPackageId) := by decide
    exact h2.trans (hp.trans h1)

/-! ## Helper lemmas for the List subcommand -/

lemma listSorted_perm (d : AliasMap) : (listSorted d).Perm d :=
  List.mergeSort_perm d _

lemma listSorted_sorted (d : AliasMap) :
    List.Sorted (fun x y : String × Nat => x.1.data ≤ y.1.data) (listSorted d) := by
  have h := @List.sorted_mergeSort (String × Nat)
    (fun x y : String × Nat => decide (x.1.data ≤ y.1.data))
    (fun a b c h1 h2 => by
      rw [decide_eq_true_iff] at *
      exact le_trans h1 h2)
    (fun a b => by simpa using le_total a.1.data b.1.data) d
  exact h.imp (fun hab => of_decide_eq_true hab)

lemma listSorted_strict {d : AliasMap} (hnd : (d.map Prod.fst).Nodup) :
    List.Pairwise (fun x y : String × Nat => x.1.data < y.1.data) (listSorted d) := by
  have hperm : ((listSorted d).map Prod.fst).Perm (d.map Prod.fst) :=
    (listSorted_perm d).map Prod.fst
  have hnd2 : ((listSorted d).map Prod.fst).Nodup := hperm.nodup_iff.mpr hnd
  have hne : List.Pairwise (fun x y : String × Nat => x.1 ≠ y.1) (listSorted d) :=
    List.pairwise_map.mp hnd2
  have hle := listSorted_sorted d
  exact (List.Pairwise.and hle hne).imp
    (fun h => lt_of_le_of_ne h.1 (fun hc => h.2 (String.ext hc)))

lemma listSorted_invariant (d₁ d₂ : AliasMap) (hperm : d₁.Perm d₂)
    (hnd : (d₁.map Prod.fst).Nodup) : listSorted d₁ = listSorted d₂ := by
  have hnd₂ : (d₂.map Prod.fst).Nodup := (hperm.map Prod.fst).nodup_iff.mp hnd
  have hp : (listSorted d₁).Perm (listSorted d₂) :=
    ((listSorted_perm d₁).trans hperm).trans (listSorted_perm d₂).symm
  haveI : IsAntisymm (String × Nat) (fun x y => x.1.data < y.1.data) :=
    ⟨fun a b h1 h2 => absurd (lt_trans h1 h2) (lt_irrefl _)⟩
  exact List.eq_of_perm_of_sorted hp (listSorted_strict hnd) (listSorted_strict hnd₂)

/-! ## Helper lemma for the List display layout -/

lemma roundDivTabSize_cast (n : ℕ) :
    (roundDivTabSize n : ℤ) = round ((n : ℚ) / 4) := by
  rw [round_eq]
  have h4 : ((n : ℚ) / 4 + 1 / 2) = ((n + 2 : ℕ) : ℚ) / ((4 : ℕ) : ℚ) := by
    push_cast
    ring
  rw [h4, Rat.floor_natCast_div_natCast]
  unfold roundDivTabSize
  omega

/-! ## Claim theorems -/

/-- Claim C1, counterexample: it is not the case that whenever the data
subdirectory exists and the backing file cannot be parsed for any reason
including a missing file (modelled as the open call failing, with nothing
parsed), `Open` yields an empty mapping: with the directory present and
the file unopenable, `get_alias_data` panics (`.unwrap()` on
`OpenOptions::open`) and the whole command fails. -/
theorem open_parse_fallback_counterexample :
    ¬ (∀ e : Env, e.dirExists = true →
        (e.openFileOk = false ∨ e.parseResult = none) →
        get_alias_data e = OpenResult.ok []) := by
  intro h
  have h0 := h ⟨true, true, true, false, none⟩ rfl (Or.inl rfl)
  exact absurd h0 (by decide)

/-- Claim C1, amended: when the data subdirectory exists and the backing
file opens successfully, a parse failure of any kind (malformed content,
empty file) does not fail the command: `get_alias_data` returns the empty
in-memory mapping. -/
theorem open_parse_fallback (e : Env) (hdir : e.dirExists = true)
    (hopen : e.openFileOk = true) (hparse : e.parseResult = none) :
    get_alias_data e = OpenResult.ok [] := by
  simp [get_alias_data, hdir, hopen, hparse]

/-- Witness for `open_parse_fallback` at a concrete environment. -/
theorem open_parse_fallback_witness :
    get_alias_data ⟨true, true, true, true, none⟩ = OpenResult.ok [] :=
  open_parse_fallback ⟨true, true, true, true, none⟩ rfl rfl rfl

/-- Claim C2: the `Remove` retain loop checks each requested alias for
membership against the stored keys exactly as given (an alias is retained
iff that very string is a key), while `Lookup`/`Play` lower-case their
input before searching and `Set` inserts the trimmed lower-cased key; on
the concrete store `{ets2 ↦ 227300}` the alias `"ETS2"` is found by
`Lookup` but not by `Remove`. -/
theorem remove_exact_match :
    (∀ (data : AliasMap) (aliases : List String) (a : String),
        a ∈ (retainReport data aliases).1 ↔ a ∈ aliases ∧ containsKey data a = true)
    ∧ (∀ (data : AliasMap) (s : String), lookup data s = getKey data (lowerString s))
    ∧ (∀ (data : AliasMap) (aliasStr : String) (gid : Nat),
        0 < byteLen (lowerString (rustTrim aliasStr)) →
        (setCommand data aliasStr gid).data =
          insertKey data (lowerString (rustTrim aliasStr)) gid)
    ∧ (retainReport [("ets2", 227300)] ["ETS2"]).1 = []
    ∧ lookup [("ets2", 227300)] "ETS2" = some 227300 := by
  refine ⟨?_, fun _ _ => rfl, ?_, by decide, by decide⟩
  · intro data aliases a
    rw [retainReport_fst, List.mem_filter]
  · intro data aliasStr gid h
    simp only [setCommand, if_pos h]

/-- Witness for `remove_exact_match` discharging the byte-length
hypothesis of its `Set` conjunct at a concrete alias. -/
theorem remove_exact_match_witness :
    (setCommand [] "ETS2" 227300).data =
      insertKey [] (lowerString (rustTrim "ETS2")) 227300 :=
  remove_exact_match.2.2.1 [] "ETS2" 227300 (by decide)

/-- Claim C3: `Remove` partitions the request into found and missing
aliases; every missing alias is reported individually in input order;
when some alias was found the command deletes exactly the found keys
(membership in the result is membership in the store with a key outside
the found set), persists exactly once with the consolidated message
joining the found aliases by `", "` and the resulting count; when no
alias was found nothing is persisted and the current count is
reported. -/
theorem remove_partition (data : AliasMap) (aliases : List String) :
    (foundAliases data aliases ≠ [] →
      removeCommand data aliases =
        { data := removeResult data aliases,
          persistCalls := [(removeResult data aliases, removeSuccessMsg data aliases)],
          printed := (missingAliases data aliases).map notFoundMsg })
    ∧ (∀ p : String × Nat,
        p ∈ removeResult data aliases ↔ p ∈ data ∧ p.1 ∉ foundAliases data aliases)
    ∧ (foundAliases data aliases = [] →
      removeCommand data aliases =
        { data := data, persistCalls := [],
          printed := aliases.map notFoundMsg ++
            ["Nothing to be removed; total aliases = " ++ toString data.length] }) := by
  refine ⟨?_, ?_, ?_⟩
  · intro hne
    have h1 : (retainReport data aliases).1 = foundAliases data aliases :=
      retainReport_fst data aliases
    have hlen : 0 < (retainReport data aliases).1.length := by
      rw [h1]
      exact List.length_pos.mpr hne
    unfold removeCommand
    rw [if_pos hlen, h1, joinCommaSpace_eq, retainReport_snd]
    rfl
  · intro p
    unfold removeResult
    rw [List.mem_filter]
    simp
  · intro hnil
    have h1 : (retainReport data aliases).1 = [] := by
      rw [retainReport_fst data aliases]
      exact hnil
    have hall : ∀ a ∈ aliases, ¬ containsKey data a = true :=
      List.filter_eq_nil_iff.mp hnil
    have h2 : (retainReport data aliases).2 = aliases.map notFoundMsg := by
      rw [retainReport_snd]
      have : aliases.filter (fun a => !(containsKey data a)) = aliases :=
        List.filter_eq_self.mpr (fun a ha => by simpa using hall a ha)
      rw [this]
    have hlen : ¬ ((retainReport data aliases).1.length > 0) := by
      rw [h1]
      simp
    unfold removeCommand
    rw [if_neg hlen, h2]

/-- Witness for `remove_partition` on the store `{a ↦ 1, b ↦ 2}` with
request `["a", "z"]`: only `"a"` is found and removed. -/
theorem remove_partition_witness :
    removeCommand [("a", 1), ("b", 2)] ["a", "z"] =
      { data := removeResult [("a", 1), ("b", 2)] ["a", "z"],
        persistCalls := [(removeResult [("a", 1), ("b", 2)] ["a", "z"],
          removeSuccessMsg [("a", 1), ("b", 2)] ["a", "z"])],
        printed := (missingAliases [("a", 1), ("b", 2)] ["a", "z"]).map notFoundMsg } :=
  (remove_partition [("a", 1), ("b", 2)] ["a", "z"]).1 (by decide)

/-- Claim C4, counterexample: the round trip `Set` then `Lookup` on a
case variant fails for an alias with surrounding whitespace: `Set` stores
the trimmed lower-cased key while `Lookup` only lower-cases, so with
alias `" x"` (accepted by `Set`, its trimmed form non-empty) the lookup
of `" x"` itself (a case variant of itself) misses. -/
theorem set_lookup_roundtrip_counterexample :
    ¬ (∀ (data : AliasMap) (a v : String) (gid : Nat),
        lowerString (rustTrim a) ≠ "" → lowerString v = lowerString a →
        lookup ((setCommand data a gid).data) v = some gid) := by
  intro h
  have h0 := h [] " x" " x" 1 (by decide) rfl
  exact absurd h0 (by decide)

/-- Claim C4, amended: for every alias accepted by `Set` that carries no
surrounding whitespace (`trim` leaves it unchanged), `Set(a, id)` followed
by `Lookup` of any case variant of `a` (any `v` with the same
lower-casing) returns `id`. -/
theorem set_lookup_roundtrip (data : AliasMap) (a v : String) (gid : Nat)
    (htrim : rustTrim a = a) (hne : lowerString a ≠ "")
    (hv : lowerString v = lowerString a) :
    lookup ((setCommand data a gid).data) v = some gid := by
  have hpos : 0 < byteLen (lowerString (rustTrim a)) := by
    rw [htrim]
    exact byteLen_pos hne
  simp only [setCommand, if_pos hpos]
  unfold lookup
  rw [hv, htrim]
  exact getKey_insertKey_self data (lowerString a) gid

/-- Witness for `set_lookup_roundtrip`: `Set("ETS2", 227300)` then
`Lookup("Ets2")` returns `227300`. -/
theorem set_lookup_roundtrip_witness :
    lookup ((setCommand [] "ETS2" 227300).data) "Ets2" = some 227300 :=
  set_lookup_roundtrip [] "ETS2" "Ets2" 227300 (by decide) (by decide) (by decide)

/-- Claim C5: when the whitespace-trimmed alias is empty, `Set` leaves the
mapping unchanged, calls `write_to_data_file` zero times and prints the
empty-alias message. -/
theorem set_empty_alias (data : AliasMap) (aliasStr : String) (gid : Nat)
    (h : rustTrim aliasStr = "") :
    setCommand data aliasStr gid =
      { data := data, persistCalls := [], printed := ["Alias must not be empty"] } := by
  unfold setCommand
  rw [h]
  rfl

/-- Witness for `set_empty_alias` at the all-blank alias. -/
theorem set_empty_alias_witness :
    setCommand [("a", 1)] "   " 7 =
      { data := [("a", 1)], persistCalls := [], printed := ["Alias must not be empty"] } :=
  set_empty_alias [("a", 1)] "   " 7 (by decide)

/-- Claim C6: on a store whose keys are all lower-case and non-empty,
every mapping passed to `write_to_data_file` by `Set` (which only inserts
the trimmed, lower-cased, non-empty key) or by `Remove` (which only
deletes entries) again has only lower-case non-empty keys. -/
theorem keys_lowercase_invariant (m : AliasMap) (hm : storeInv m) :
    (∀ (aliasStr : String) (gid : Nat),
        ∀ pc ∈ (setCommand m aliasStr gid).persistCalls, storeInv pc.1)
    ∧ (∀ aliases : List String,
        ∀ pc ∈ (removeCommand m aliases).persistCalls, storeInv pc.1) := by
  constructor
  · intro aliasStr gid pc hpc
    by_cases hpos : byteLen (lowerString (rustTrim aliasStr)) > 0
    · simp only [setCommand] at hpc
      rw [if_pos hpos] at hpc
      rw [List.mem_singleton] at hpc
      subst hpc
      intro p hp
      rcases mem_insertKey hp with h1 | h1
      · subst h1
        refine ⟨fun he => ?_, lowerString_idem (rustTrim aliasStr)⟩
        rw [show (lowerString (rustTrim aliasStr), gid).1 = lowerString (rustTrim aliasStr)
          from rfl] at he
        rw [he] at hpos
        exact absurd hpos (by decide)
      · exact hm p h1
    · simp only [setCommand] at hpc
      rw [if_neg hpos] at hpc
      simp at hpc
  · intro aliases pc hpc
    by_cases hlen : (retainReport m aliases).1.length > 0
    · simp only [removeCommand] at hpc
      rw [if_pos hlen] at hpc
      rw [List.mem_singleton] at hpc
      subst hpc
      intro p hp
      exact hm p (List.mem_filter.mp hp).1
    · simp only [removeCommand] at hpc
      rw [if_neg hlen] at hpc
      simp at hpc

/-- Witness for `keys_lowercase_invariant`: the mapping persisted by
`Set(" ETS2 ", 1)` on the store `{ets2 ↦ 227300}` satisfies the
invariant. -/
theorem keys_lowercase_invariant_witness :
    storeInv ((setCommand [("ets2", 227300)] " ETS2 " 1).persistCalls.headI).1 :=
  (keys_lowercase_invariant [("ets2", 227300)] (by unfold storeInv goodKey; decide)).1 " ETS2 " 1
    ((setCommand [("ets2", 227300)] " ETS2 " 1).persistCalls.headI) (by decide)

/-- Claim C7: the launch dispatcher is a function of the installed-package
probe: when some line of the `flatpak list` output contains the package
identifier `com.valvesoftware.Steam`, the grep output contains `"Steam"`
and the client is started through `flatpak run` with the deep link
`steam://run/<game_id>`; otherwise the bare `steam` executable is invoked
with the same deep link. -/
theorem launch_dispatch (listing : List Chars) (gid : Nat) :
    ((∃ l ∈ listing, steamPackageId <:+: l) →
        run_steam_game listing gid = LaunchAction.flatpakRun (deepLink gid))
    ∧ (¬ (∃ l ∈ listing, steamPackageId <:+: l) →
        run_steam_game listing gid = LaunchAction.steamDirect (deepLink gid)) := by
  constructor
  · intro hex
    have h := (grep_steam_iff listing).mpr hex
    unfold run_steam_game
    rw [if_pos h]
  · intro hnex
    have h : ¬ ("Steam".data <:+: grepOutput steamPackageId listing) :=
      fun hc => hnex ((grep_steam_iff listing).mp hc)
    unfold run_steam_game
    rw [if_neg h]

/-- Witness for `launch_dispatch` on a listing that contains the Steam
flatpak package. -/
theorem launch_dispatch_witness :
    run_steam_game ["x com.valvesoftware.Steam 1.0".data] 227300 =
      LaunchAction.flatpakRun (deepLink 227300) :=
  (launch_dispatch ["x com.valvesoftware.Steam 1.0".data] 227300).1 (by decide)

/-- Claim C8: `List` renders all entries (the sorted list is a permutation
of the store) sorted in ascending byte/codepoint lexicographic order of
the alias, mutates nothing and persists nothing; and for a store with
distinct keys the sorted output is the same for every insertion order
(any permutation of the entries). -/
theorem list_sorted_spec :
    (∀ data : AliasMap,
      (listSorted data).Perm data
      ∧ List.Sorted (fun x y : String × Nat => x.1.data ≤ y.1.data) (listSorted data)
      ∧ (listCommand data).data = data
      ∧ (listCommand data).persistCalls = [])
    ∧ ∀ d₁ d₂ : AliasMap, d₁.Perm d₂ → (d₁.map Prod.fst).Nodup →
        listSorted d₁ = listSorted d₂ := by
  constructor
  · intro data
    exact ⟨listSorted_perm data, listSorted_sorted data, rfl, rfl⟩
  · intro d₁ d₂ hperm hnd
    exact listSorted_invariant d₁ d₂ hperm hnd

/-- Witness for `list_sorted_spec`: the stores `{b ↦ 2, a ↦ 1}` and
`{a ↦ 1, b ↦ 2}` sort to the same list. -/
theorem list_sorted_spec_witness :
    listSorted [("b", 2), ("a", 1)] = listSorted [("a", 1), ("b", 2)] :=
  list_sorted_spec.2 [("b", 2), ("a", 1)] [("a", 1), ("b", 2)]
    (List.Perm.swap ("a", 1) ("b", 2) []) (by decide)

/-- Claim C9: the display layout of a listed entry is chosen by comparing
`round(length(alias) / 4.0)` (byte length, real division, rounding) with
the threshold `num_tabs = 4`: above the threshold the alias is printed on
its own line with the identifier on the next line after four tab
characters, otherwise alias, four tabs and identifier share one line. -/
theorem entry_layout (kv : String × Nat) :
    spacesStr = "\t\t\t\t"
    ∧ ((4 : ℤ) < round ((byteLen kv.1 : ℚ) / 4) →
        entryLines kv = [kv.1, spacesStr ++ toString kv.2])
    ∧ (round ((byteLen kv.1 : ℚ) / 4) ≤ 4 →
        entryLines kv = [kv.1 ++ spacesStr ++ toString kv.2]) := by
  refine ⟨by decide, ?_, ?_⟩
  · intro h
    rw [← roundDivTabSize_cast] at h
    have h4 : roundDivTabSize (byteLen kv.1) > num_tabs := by
      unfold num_tabs
      exact_mod_cast h
    unfold entryLines
    rw [if_pos h4]
  · intro h
    rw [← roundDivTabSize_cast] at h
    have h4 : ¬ (roundDivTabSize (byteLen kv.1) > num_tabs) := by
      unfold num_tabs
      omega
    unfold entryLines
    rw [if_neg h4]

/-- Witness for `entry_layout` at an 18-byte alias, for which
`round(18 / 4) = 5` exceeds the threshold. -/
theorem entry_layout_witness :
    entryLines ("a-very-long-alias!", 5) = ["a-very-long-alias!", spacesStr ++ toString 5] := by
  apply (entry_layout ("a-very-long-alias!", 5)).2.1
  rw [← roundDivTabSize_cast]
  decide

/-- Claim C10: `write_to_data_file` truncates the backing file and resets
the write position before attempting serialization, so when serialization
fails the previous contents are already destroyed: whatever the file held
before, it is left empty, only the warning naming the data file is
printed, and the function returns normally. -/
theorem write_failure_truncates (fs : FileState) (serialize : AliasMap → Option String)
    (data : AliasMap) (message : String) (h : serialize data = none) :
    write_to_data_file fs serialize data message =
      { file := "", printed := ["Error while writing to " ++ DATA_FILE_NAME],
        panicked := false } := by
  unfold write_to_data_file
  rw [h]

/-- Witness for `write_failure_truncates`: a file holding old contents is
left empty by a failing serializer. -/
theorem write_failure_truncates_witness :
    write_to_data_file ⟨"previous contents"⟩ (fun _ => none) [("a", 1)] "ok" =
      { file := "", printed := ["Error while writing to " ++ DATA_FILE_NAME],
        panicked := false } :=
  write_failure_truncates ⟨"previous contents"⟩ (fun _ => none) [("a", 1)] "ok" rfl

end Steamlet
